import Mathlib

/-!
Shallow embedding of `scripts/disa_cyber_expiring.py` (the current pipeline)
and `scripts/scripts/disa_cyber_expiring.py` (the earlier variant that
accumulates all rows before filtering), for checking the repository's
specification.

API JSON values are modelled by the inductive type `Value`; Python dicts
appear as association lists (Python dicts have unique keys, `pyGet` takes
the first binding).  Python truthiness, `str()`, `json.dumps`, and the
lexicographic code-point string comparison are modelled explicitly.
String comparison uses Mathlib's order on `String`, which is lexicographic
by code point, exactly as Python compares `str` values.
-/

namespace Disa

/-- JSON-like values as returned by the USAspending API. -/
inductive Value where
  | null : Value
  | bool (b : Bool) : Value
  | num (n : Int) : Value
  | str (s : String) : Value
  | arr (xs : List Value) : Value
  | obj (fields : List (String × Value)) : Value

/-- Python truthiness of a value (`if v:`). -/
def truthy : Value → Bool
  | .null => false
  | .bool b => b
  | .num n => n != 0
  | .str s => s ≠ ""
  | .arr xs => !xs.isEmpty
  | .obj fs => !fs.isEmpty

/-- `d.get(k)`: the first binding of `k`, else `None`. -/
def pyGet (fields : List (String × Value)) (k : String) : Value :=
  match fields.find? (fun p => p.1 == k) with
  | some p => p.2
  | none => .null

/-- `d.get(k, default)`. -/
def pyGetD (fields : List (String × Value)) (k : String) (d : Value) : Value :=
  match fields.find? (fun p => p.1 == k) with
  | some p => p.2
  | none => d

/-- Python `a or b`: the first operand if truthy, else the second. -/
def pyOr (a b : Value) : Value := if truthy a then a else b

mutual
/-- Python `repr()` of a value (used by `str()` on containers). -/
def pyRepr : Value → String
  | .null => "None"
  | .bool b => if b then "True" else "False"
  | .num n => toString n
  | .str s => "'" ++ s ++ "'"
  | .arr xs => "[" ++ String.intercalate ", " (pyReprList xs) ++ "]"
  | .obj fs => "\x7b" ++ String.intercalate ", " (pyReprFields fs) ++ "\x7d"

def pyReprList : List Value → List String
  | [] => []
  | x :: xs => pyRepr x :: pyReprList xs

def pyReprFields : List (String × Value) → List String
  | [] => []
  | (k, v) :: fs => ("'" ++ k ++ "': " ++ pyRepr v) :: pyReprFields fs
end

/-- Python `str()` of a value. -/
def pyStr : Value → String
  | .str s => s
  | v => pyRepr v

/-- Minimal JSON string escaping (quote and backslash), `ensure_ascii=False`. -/
def jsonEscape (s : String) : String :=
  String.join (s.toList.map (fun c =>
    if c = '"' then "\\\"" else if c = '\\' then "\\\\" else String.singleton c))

mutual
/-- `json.dumps(v, ensure_ascii=False)` with the default separators. -/
def jsonDumps : Value → String
  | .null => "null"
  | .bool b => if b then "true" else "false"
  | .num n => toString n
  | .str s => "\"" ++ jsonEscape s ++ "\""
  | .arr xs => "[" ++ String.intercalate ", " (jsonDumpsList xs) ++ "]"
  | .obj fs => "\x7b" ++ String.intercalate ", " (jsonDumpsFields fs) ++ "\x7d"

def jsonDumpsList : List Value → List String
  | [] => []
  | x :: xs => jsonDumps x :: jsonDumpsList xs

def jsonDumpsFields : List (String × Value) → List String
  | [] => []
  | (k, v) :: fs => ("\"" ++ jsonEscape k ++ "\": " ++ jsonDumps v) :: jsonDumpsFields fs
end

mutual
/-- `_normalize(v)` from `scripts/disa_cyber_expiring.py`. -/
def normalize : Value → String
  | .obj fields =>
      let code := pyGet fields "code"
      let desc := pyOr (pyGet fields "description") (pyGet fields "name")
      if truthy code && truthy desc then pyStr code ++ " - " ++ pyStr desc
      else if truthy code then pyStr code
      else jsonDumps (.obj fields)
  | .arr xs => String.intercalate "; " (normalizeList xs)
  | .null => ""
  | v => pyStr v

def normalizeList : List Value → List String
  | [] => []
  | x :: xs => normalize x :: normalizeList xs
end

/-- A record (`row`) is a Python dict from field name to raw value. -/
abbrev Row := List (String × Value)

/-- The 13-column schema (`FIELDS`). -/
def FIELDS : List String :=
  ["Award ID", "Recipient Name", "Award Amount", "Awarding Agency",
   "Awarding Sub Agency", "Funding Agency", "Funding Sub Agency", "PSC",
   "NAICS", "Start Date", "End Date", "Last Modified Date", "Description"]

/-- Does the string start with the shape `\d\x7b4\x7d-\d\x7b2\x7d-\d\x7b2\x7d`
(the regex `_DATE_RE`, anchored at the front, no calendar validation)? -/
def datePrefixOK (s : String) : Bool :=
  match s.toList with
  | a :: b :: c :: d :: e :: f :: g :: h :: i :: j :: _ =>
      a.isDigit && b.isDigit && c.isDigit && d.isDigit && e == '-' &&
      f.isDigit && g.isDigit && h == '-' && i.isDigit && j.isDigit
  | _ => false

/-- `_date_only(s)`: the leading `YYYY-MM-DD`-shaped 10 characters of
`str(s)` if present (and `s` truthy), else the empty string. -/
def dateOnly (v : Value) : String :=
  if truthy v then
    let s := pyStr v
    if datePrefixOK s then (s.toList.take 10).asString else ""
  else ""

/-- `_get_end_date(row)`: `or`-chain over the candidate end-date keys,
primary label first, ending in `""`. -/
def getEndDate (row : Row) : Value :=
  pyOr (pyGet row "End Date")
    (pyOr (pyGet row "period_of_performance_current_end_date")
      (pyOr (pyGet row "period_of_performance_potential_end_date")
        (pyOr (pyGet row "Period of Performance Current End Date")
          (pyOr (pyGet row "Period of Performance Potential End Date")
            (.str "")))))

/-- The end date string the pipeline works with: `_date_only(_get_end_date(row))`. -/
def extractEndDate (row : Row) : String := dateOnly (getEndDate row)

/-- ASCII lowercasing of a string (`.lower()`; the data in this pipeline is
ASCII, so ASCII case folding models Python's `str.lower`). -/
def lowerStr (s : String) : String :=
  (s.toList.map Char.toLower).asString

/-- Structural prefix test on character lists. -/
def prefixB : List Char → List Char → Bool
  | [], _ => true
  | _ :: _, [] => false
  | a :: as, b :: bs => a == b && prefixB as bs

/-- Structural substring (contiguous) test on character lists. -/
def infixB (pat : List Char) : List Char → Bool
  | [] => pat.isEmpty
  | c :: rest => prefixB pat (c :: rest) || infixB pat rest

/-- Python `p in hay` substring test. -/
def strContains (hay pat : String) : Bool :=
  infixB pat.toList hay.toList

/-- The lowercased haystack `_matches_agency` searches:
the four agency fields joined with a separator. -/
def agencyHaystack (row : Row) : String :=
  lowerStr (String.intercalate " | "
    [pyStr (pyGetD row "Awarding Agency" (.str "")),
     pyStr (pyGetD row "Awarding Sub Agency" (.str "")),
     pyStr (pyGetD row "Funding Agency" (.str "")),
     pyStr (pyGetD row "Funding Sub Agency" (.str ""))])

/-- `_matches_agency(row, patterns)`. -/
def matchesAgency (row : Row) (patterns : List String) : Bool :=
  if patterns.isEmpty then true
  else patterns.any (fun p => strContains (agencyHaystack row) p)

/-- Python `a < b` on strings: lexicographic comparison of the character
lists by Unicode code point (shorter strict prefix counts as smaller). -/
def ltList : List Char → List Char → Bool
  | [], [] => false
  | [], _ :: _ => true
  | _ :: _, [] => false
  | a :: as, b :: bs =>
      if a.toNat < b.toNat then true
      else if b.toNat < a.toNat then false
      else ltList as bs

/-- Python `a < b` on strings. -/
def strLt (a b : String) : Bool := ltList a.toList b.toList

/-- Python `a <= b` on strings (total order: `a <= b` iff not `b < a`). -/
def strLe (a b : String) : Bool := !strLt b a

/-- Python `min` over a nonempty list (first element plus the rest):
keep the current minimum unless a strictly smaller element appears. -/
def minStr (x : String) : List String → String
  | [] => x
  | y :: ys => minStr (if strLt y x then y else x) ys

/-- One page of API results: the `results` array and `page_metadata.hasNext`. -/
structure Page where
  rows : List Row
  hasNext : Bool

/-- Why the fetch loop stopped. -/
inductive StopReason where
  | exhausted  : StopReason  -- a page came back with zero records
  | earlyStop  : StopReason  -- page minimum end date fell below the window start
  | lastPage   : StopReason  -- `hasNext` false
  | safetyCap  : StopReason  -- `page > max_pages`
  deriving DecidableEq

/-- Result of the fetch loop.  `fetched` counts page requests;
`scannedRows` lists every processed record in fetch order
(the script keeps the count `all_scanned = scannedRows.length`);
`kept` is the filtered accumulator. -/
structure Out where
  fetched : Nat
  scannedRows : List Row
  kept : List Row
  reason : StopReason

/-- The per-record filter of the fetch loop (`continue` conditions inverted):
agency match, non-empty extracted end date, and `start <= ed <= end`
as Python string comparisons. -/
def keepRow (start stop : String) (patterns : List String) (row : Row) : Bool :=
  let ed := extractEndDate row
  matchesAgency row patterns && ed != "" && strLe start ed && strLe ed stop

/-- `page_end_dates`: the non-empty extracted end dates of a page's rows. -/
def pageEndDates (rows : List Row) : List String :=
  (rows.map extractEndDate).filter (fun e => e != "")

/-- `if page_end_dates: min_ed = min(page_end_dates); if min_ed < start: break`. -/
def pageMinBelow (eds : List String) (start : String) : Bool :=
  match eds with
  | [] => false
  | e :: rest => strLt (minStr e rest) start

/-- The fetch loop of `main` in `scripts/disa_cyber_expiring.py`, run against a
sequence of available pages (a request past the end of the list returns an
empty page).  `es` enables the early-stop branch; the script runs with
`es = true`, and `es = false` is the same loop with only that break removed,
for stating that the early stop changes nothing. -/
def loopGo (es : Bool) (start stop : String) (patterns : List String)
    (maxPages : Nat) :
    List Page → Nat → Nat → List Row → List Row → Out
  | [], _page, fetched, scanned, kept =>
      ⟨fetched + 1, scanned, kept, .exhausted⟩
  | p :: rest, page, fetched, scanned, kept =>
      if p.rows.isEmpty then ⟨fetched + 1, scanned, kept, .exhausted⟩
      else
        let scanned2 := scanned ++ p.rows
        let kept2 := kept ++ p.rows.filter (keepRow start stop patterns)
        if es && pageMinBelow (pageEndDates p.rows) start then
          ⟨fetched + 1, scanned2, kept2, .earlyStop⟩
        else if !p.hasNext then ⟨fetched + 1, scanned2, kept2, .lastPage⟩
        else if decide (maxPages < page + 1) then
          ⟨fetched + 1, scanned2, kept2, .safetyCap⟩
        else loopGo es start stop patterns maxPages rest (page + 1) (fetched + 1)
          scanned2 kept2

/-- The whole fetch-and-filter phase, from page 1 with empty accumulators. -/
def fetchAll (es : Bool) (start stop : String) (patterns : List String)
    (maxPages : Nat) (pages : List Page) : Out :=
  loopGo es start stop patterns maxPages pages 1 0 [] []

/-- A raw HTTP page response: final status code (after the session's
internal retries for 429/500/502/503/504 are exhausted) plus the body. -/
structure Response where
  status : Nat
  rows : List Row
  hasNext : Bool

/-- A response whose request succeeded. -/
def okResp (p : Page) : Response := ⟨200, p.rows, p.hasNext⟩

/-- `Response.raise_for_status()` raises exactly for 4xx/5xx statuses. -/
def raisesForStatus (status : Nat) : Bool :=
  decide (400 ≤ status) && decide (status < 600)

/-- The fetch loop as run by `main`, with HTTP statuses: a 4xx/5xx response
aborts with that status (`raise_for_status`), anything else is processed.
`jitter` models the random sleep drawn before each page request after the
first; it is consumed but (like `time.sleep`) contributes nothing to the
data.  The early-stop branch is always on, as in the script. -/
def loopE (start stop : String) (patterns : List String) (maxPages : Nat) :
    List Response → List Nat → Nat → Nat → List Row → List Row →
    Except Nat Out
  | [], _jitter, _page, fetched, scanned, kept =>
      .ok ⟨fetched + 1, scanned, kept, .exhausted⟩
  | r :: rest, jitter, page, fetched, scanned, kept =>
      if raisesForStatus r.status then .error r.status
      else if r.rows.isEmpty then .ok ⟨fetched + 1, scanned, kept, .exhausted⟩
      else
        let scanned2 := scanned ++ r.rows
        let kept2 := kept ++ r.rows.filter (keepRow start stop patterns)
        if pageMinBelow (pageEndDates r.rows) start then
          .ok ⟨fetched + 1, scanned2, kept2, .earlyStop⟩
        else if !r.hasNext then .ok ⟨fetched + 1, scanned2, kept2, .lastPage⟩
        else if decide (maxPages < page + 1) then
          .ok ⟨fetched + 1, scanned2, kept2, .safetyCap⟩
        else loopE start stop patterns maxPages rest jitter.tail (page + 1)
          (fetched + 1) scanned2 kept2

/-- CSV field serialization, `csv` module default dialect: quote a field iff
it holds a comma, quote, CR or LF; embedded quotes are doubled. -/
def csvField (s : String) : String :=
  if s.toList.any (fun c => c == ',' || c == '"' || c == '\n' || c == '\r') then
    "\"" ++ String.join (s.toList.map (fun c =>
      if c = '"' then "\"\"" else String.singleton c)) ++ "\""
  else s

/-- One CSV line (default line terminator CRLF). -/
def csvLine (cells : List String) : String :=
  String.intercalate "," (cells.map csvField) ++ "\r\n"

/-- The written report: header then one line per kept row, each cell
`_normalize(row.get(k, ""))` over the 13-field schema. -/
def renderReport (kept : List Row) : String :=
  csvLine FIELDS ++
    String.join (kept.map (fun row =>
      csvLine (FIELDS.map (fun k => normalize (pyGetD row k (.str ""))))))

/-- Observable outcome of one run of `main`: process exit code and the
report file contents (`none` when the run aborted before writing it). -/
structure RunResult where
  exitCode : Nat
  csv : Option String

/-- `main` of `scripts/disa_cyber_expiring.py` over a response sequence:
an uncaught fetch error aborts with a non-zero exit before the report file
is opened; otherwise the kept rows are written and the exit is zero. -/
def mainRun (start stop : String) (patterns : List String) (maxPages : Nat)
    (responses : List Response) (jitter : List Nat) : RunResult :=
  match loopE start stop patterns maxPages responses jitter 1 0 [] [] with
  | .error _ => ⟨1, none⟩
  | .ok out => ⟨0, some (renderReport out.kept)⟩

/-- The fetch loop of the earlier variant
(`scripts/scripts/disa_cyber_expiring.py`): accumulate every record of every
fetched page into `all_rows`, with no filtering in the loop; the page cap is
hard-coded to 25.  Returns `all_rows` and the number of pages processed. -/
def oldLoop : List Page → Nat → List Row → (List Row × Nat)
  | [], _page, acc => (acc, 0)
  | p :: rest, page, acc =>
      if p.rows.isEmpty then (acc, 0)
      else if !p.hasNext then (acc ++ p.rows, 1)
      else if decide (25 < page + 1) then (acc ++ p.rows, 1)
      else
        let r := oldLoop rest (page + 1) (acc ++ p.rows)
        (r.1, r.2 + 1)

/-- `in_window` of the earlier variant: the raw `"End Date"` value
(`or ""`), compared directly against the window bounds as strings. -/
def inWindowOld (start stop : String) (row : Row) : Bool :=
  let ed := pyStr (pyOr (pyGet row "End Date") (.str ""))
  strLe start ed && strLe ed stop

/-- The earlier variant's pipeline: fetch everything, then filter locally. -/
def oldMain (start stop : String) (pages : List Page) : List Row × List Row :=
  let allRows := (oldLoop pages 1 []).1
  (allRows, allRows.filter (inWindowOld start stop))

/-- All non-empty extracted end dates of a page sequence, in fetch order. -/
def allEndDates (pages : List Page) : List String :=
  (pages.map (fun p => pageEndDates p.rows)).flatten

/-- The ordered candidate end-date field names: primary label first, then
the fallback labels of alternate API response shapes. -/
def endDateCandidates : List String :=
  ["End Date",
   "period_of_performance_current_end_date",
   "period_of_performance_potential_end_date",
   "Period of Performance Current End Date",
   "Period of Performance Potential End Date"]

/-- Written from the spec's words, for comparison with `extractEndDate`:
try the candidate field names in order, take the first non-empty value, and
return its leading 10-character `YYYY-MM-DD` prefix; empty if no candidate
is non-empty or the value does not begin with that shape. -/
def endDateSpec (row : Row) : String :=
  match (endDateCandidates.map (pyGet row)).find? truthy with
  | some v =>
      let s := pyStr v
      if datePrefixOK s then (s.toList.take 10).asString else ""
  | none => ""

/-- The pages are sorted by extracted end date in descending order:
the flattened date sequence is non-increasing under Python's string order. -/
def SortedDesc (pages : List Page) : Prop :=
  List.Pairwise (fun a b => strLe b a = true) (allEndDates pages)

instance (pages : List Page) : Decidable (SortedDesc pages) :=
  inferInstanceAs (Decidable (List.Pairwise _ _))

section Lemmas

/-- Transitivity glue for the lexicographic order: from `¬ m < d` and
`m < s` conclude `d < s`. -/
lemma ltList_trans3 : ∀ (m d s : List Char),
    ltList m d = false → ltList m s = true → ltList d s = true := by
  intro m
  induction m with
  | nil =>
      intro d s h1 h2
      cases d with
      | nil => exact h2
      | cons y ds => simp [ltList] at h1
  | cons x ms ih =>
      intro d s h1 h2
      cases s with
      | nil => cases d <;> simp [ltList] at h2
      | cons z ss =>
          cases d with
          | nil => simp [ltList]
          | cons y ds =>
              simp only [ltList] at h1 h2 ⊢
              by_cases hxy : x.toNat < y.toNat
              · simp [hxy] at h1
              · by_cases hyx : y.toNat < x.toNat
                · by_cases hxz : x.toNat < z.toNat
                  · have : y.toNat < z.toNat := by omega
                    simp [this]
                  · by_cases hzx : z.toNat < x.toNat
                    · simp [hxy, hyx, hxz, hzx] at h2
                    · have : y.toNat < z.toNat := by omega
                      simp [this]
                · simp only [hxy, hyx, if_false] at h1
                  by_cases hxz : x.toNat < z.toNat
                  · have : y.toNat < z.toNat := by omega
                    simp [this]
                  · by_cases hzx : z.toNat < x.toNat
                    · simp [hxz, hzx] at h2
                    · simp only [hxz, hzx, if_false] at h2
                      have hyz1 : ¬ y.toNat < z.toNat := by omega
                      have hyz2 : ¬ z.toNat < y.toNat := by omega
                      simp only [hyz1, hyz2, if_false]
                      exact ih ds ss h1 h2

/-- From `d ≤ m` and `m < s` conclude `d < s` on strings. -/
lemma strLt_of_le_of_lt {d m s : String}
    (h1 : strLe d m = true) (h2 : strLt m s = true) : strLt d s = true := by
  unfold strLe strLt at *
  exact ltList_trans3 m.toList d.toList s.toList (by
    cases h : ltList m.toList d.toList
    · rfl
    · rw [h] at h1; simp at h1) h2

/-- `min` of a nonempty list is one of its elements. -/
lemma minStr_mem : ∀ (xs : List String) (x : String), minStr x xs ∈ x :: xs := by
  intro xs
  induction xs with
  | nil => intro x; simp [minStr]
  | cons y ys ih =>
      intro x
      simp only [minStr]
      by_cases h : strLt y x = true
      · simp only [h, if_pos rfl]
        have := ih y
        simp only [List.mem_cons] at this ⊢
        tauto
      · have hb : strLt y x = false := by
          cases hc : strLt y x
          · rfl
          · exact absurd hc h
        simp only [hb, Bool.false_eq_true, if_false]
        have := ih x
        simp only [List.mem_cons] at this ⊢
        tauto

/-- A processed row with a non-empty extracted end date contributes that
date to `page_end_dates`. -/
lemma extractEndDate_mem_pageEndDates {r : Row} {rows : List Row}
    (hr : r ∈ rows) (hne : extractEndDate r ≠ "") :
    extractEndDate r ∈ pageEndDates rows := by
  unfold pageEndDates
  refine List.mem_filter.mpr ⟨List.mem_map.mpr ⟨r, hr, rfl⟩, ?_⟩
  simpa using hne

/-- If every row of every remaining page fails the filter, the loop adds
nothing to the kept accumulator, whatever makes it stop. -/
lemma loopGo_kept_of_all_dropped (es : Bool) (start stop : String)
    (patterns : List String) (maxPages : Nat) :
    ∀ (pages : List Page) (page fetched : Nat) (sc kept : List Row),
      (∀ r ∈ pages.flatMap Page.rows, keepRow start stop patterns r = false) →
      (loopGo es start stop patterns maxPages pages page fetched sc kept).kept
        = kept := by
  intro pages
  induction pages with
  | nil => intro page fetched sc kept _; rfl
  | cons p rest ih =>
      intro page fetched sc kept hall
      have hfilter : p.rows.filter (keepRow start stop patterns) = [] := by
        refine List.filter_eq_nil_iff.mpr ?_
        intro r hr
        have := hall r (by
          simp only [List.flatMap_cons, List.mem_append]
          exact Or.inl hr)
        simp [this]
      have hrest : ∀ r ∈ rest.flatMap Page.rows,
          keepRow start stop patterns r = false := by
        intro r hr
        exact hall r (by
          simp only [List.flatMap_cons, List.mem_append]
          exact Or.inr hr)
      simp only [loopGo]
      by_cases hemp : p.rows.isEmpty
      · simp [hemp]
      · simp only [hemp, Bool.false_eq_true, if_false, hfilter, List.append_nil]
        by_cases hmin : (es && pageMinBelow (pageEndDates p.rows) start) = true
        · simp [hmin]
        · simp only [hmin, if_false]
          by_cases hnext : !p.hasNext
          · simp [hnext]
          · simp only [hnext, Bool.false_eq_true, if_false]
            by_cases hcap : maxPages < page + 1
            · simp [hcap]
            · simp only [hcap, decide_eq_true_eq, if_false]
              exact ih (page + 1) (fetched + 1) (sc ++ p.rows) kept hrest

/-- The kept accumulator always equals the filtered scanned accumulator. -/
lemma loopGo_kept_eq_filter (es : Bool) (start stop : String)
    (patterns : List String) (maxPages : Nat) :
    ∀ (pages : List Page) (page fetched : Nat) (sc kept : List Row),
      kept = sc.filter (keepRow start stop patterns) →
      (loopGo es start stop patterns maxPages pages page fetched sc kept).kept
        = (loopGo es start stop patterns maxPages pages page fetched sc
            kept).scannedRows.filter (keepRow start stop patterns) := by
  intro pages
  induction pages with
  | nil => intro page fetched sc kept h; simpa [loopGo] using h
  | cons p rest ih =>
      intro page fetched sc kept h
      have h2 : kept ++ p.rows.filter (keepRow start stop patterns)
          = (sc ++ p.rows).filter (keepRow start stop patterns) := by
        rw [h, List.filter_append]
      simp only [loopGo]
      by_cases hemp : p.rows.isEmpty
      · simpa [hemp] using h
      · simp only [hemp, Bool.false_eq_true, if_false]
        by_cases hmin : (es && pageMinBelow (pageEndDates p.rows) start) = true
        · simpa [hmin] using h2
        · simp only [hmin, if_false]
          by_cases hnext : !p.hasNext
          · simpa [hnext] using h2
          · simp only [hnext, Bool.false_eq_true, if_false]
            by_cases hcap : maxPages < page + 1
            · simpa [hcap] using h2
            · simp only [hcap, decide_eq_true_eq, if_false]
              exact ih (page + 1) (fetched + 1) (sc ++ p.rows) _ h2

lemma allEndDates_cons (p : Page) (rest : List Page) :
    allEndDates (p :: rest) = pageEndDates p.rows ++ allEndDates rest := by
  simp [allEndDates]

lemma mem_allEndDates {r : Row} {p' : Page} {pages : List Page}
    (hp : p' ∈ pages) (hr : r ∈ p'.rows) (hne : extractEndDate r ≠ "") :
    extractEndDate r ∈ allEndDates pages := by
  unfold allEndDates
  exact List.mem_flatten.mpr ⟨pageEndDates p'.rows,
    List.mem_map.mpr ⟨p', hp, rfl⟩, extractEndDate_mem_pageEndDates hr hne⟩

/-- Under a descending end-date sort, the loop with the early-stop branch
keeps exactly what the loop without it keeps. -/
lemma loopGo_es_agnostic (start stop : String) (patterns : List String)
    (maxPages : Nat) :
    ∀ (pages : List Page) (page fetched : Nat) (sc kept : List Row),
      SortedDesc pages →
      (loopGo true start stop patterns maxPages pages page fetched sc kept).kept
        = (loopGo false start stop patterns maxPages pages page fetched sc
            kept).kept := by
  intro pages
  induction pages with
  | nil => intro page fetched sc kept _; rfl
  | cons p rest ih =>
      intro page fetched sc kept hsorted
      have hparts := hsorted
      unfold SortedDesc at hparts
      rw [allEndDates_cons, List.pairwise_append] at hparts
      obtain ⟨_, hrest_sorted, hcross⟩ := hparts
      simp only [loopGo]
      by_cases hemp : p.rows.isEmpty
      · simp [hemp]
      · simp only [hemp, Bool.false_eq_true, if_false, Bool.true_and,
          Bool.false_and, Bool.false_eq_true, if_false]
        by_cases hmin : pageMinBelow (pageEndDates p.rows) start = true
        · -- early stop fires: the picky loop stops now; the plain loop may
          -- go on, but every later record fails the window filter.
          simp only [hmin, if_pos rfl]
          have hdead : ∀ r ∈ rest.flatMap Page.rows,
              keepRow start stop patterns r = false := by
            intro r hrmem
            obtain ⟨p', hp', hr⟩ := List.mem_flatMap.mp hrmem
            by_cases hed : extractEndDate r = ""
            · simp [keepRow, hed]
            · -- the record is dated; its date sits below the page minimum,
              -- which already sits below the window start
              cases heds : pageEndDates p.rows with
              | nil => rw [heds] at hmin; simp [pageMinBelow] at hmin
              | cons e tail =>
                  rw [heds] at hmin
                  simp only [pageMinBelow] at hmin
                  have hminmem : minStr e tail ∈ pageEndDates p.rows := by
                    rw [heds]; exact minStr_mem tail e
                  have hle : strLe (extractEndDate r) (minStr e tail) = true :=
                    hcross _ hminmem _ (mem_allEndDates hp' hr hed)
                  have hlt : strLt (extractEndDate r) start = true :=
                    strLt_of_le_of_lt hle hmin
                  have : strLe start (extractEndDate r) = false := by
                    simp [strLe, hlt]
                  simp [keepRow, this]
          by_cases hnext : !p.hasNext
          · simp [hnext]
          · simp only [hnext, Bool.false_eq_true, if_false]
            by_cases hcap : maxPages < page + 1
            · simp [hcap]
            · simp only [hcap, decide_eq_true_eq, if_false]
              exact (loopGo_kept_of_all_dropped false start stop patterns
                maxPages rest (page + 1) (fetched + 1) _ _ hdead).symm
        · simp only [hmin, Bool.false_eq_true, if_false]
          by_cases hnext : !p.hasNext
          · simp [hnext]
          · simp only [hnext, Bool.false_eq_true, if_false]
            by_cases hcap : maxPages < page + 1
            · simp [hcap]
            · simp only [hcap, decide_eq_true_eq, if_false]
              exact ih (page + 1) (fetched + 1) _ _ hrest_sorted

/-- The loop makes at most `max_pages` page requests once the cap is at
least the starting page number. -/
lemma loopGo_fetched_le (es : Bool) (start stop : String)
    (patterns : List String) (maxPages : Nat) :
    ∀ (pages : List Page) (page fetched : Nat) (sc kept : List Row),
      page ≤ maxPages →
      (loopGo es start stop patterns maxPages pages page fetched sc
        kept).fetched ≤ fetched + (maxPages - page) + 1 := by
  intro pages
  induction pages with
  | nil => intro page fetched sc kept h; simp only [loopGo]; omega
  | cons p rest ih =>
      intro page fetched sc kept h
      simp only [loopGo]
      by_cases hemp : p.rows.isEmpty = true
      · rw [if_pos hemp]; show fetched + 1 ≤ _; omega
      · rw [if_neg hemp]
        by_cases hmin : (es && pageMinBelow (pageEndDates p.rows) start) = true
        · rw [if_pos hmin]; show fetched + 1 ≤ _; omega
        · rw [if_neg hmin]
          by_cases hnext : (!p.hasNext) = true
          · rw [if_pos hnext]; show fetched + 1 ≤ _; omega
          · rw [if_neg hnext]
            by_cases hcap : decide (maxPages < page + 1) = true
            · rw [if_pos hcap]; show fetched + 1 ≤ _; omega
            · rw [if_neg hcap]
              have hcap2 : ¬ maxPages < page + 1 := by simpa using hcap
              have hrec := ih (page + 1) (fetched + 1) (sc ++ p.rows)
                (kept ++ p.rows.filter (keepRow start stop patterns))
                (by omega)
              omega

/-- On an all-successful response sequence, the statusful loop computes
exactly what the pure loop (with the early stop on) computes. -/
lemma loopE_map_ok (start stop : String) (patterns : List String)
    (maxPages : Nat) :
    ∀ (pages : List Page) (jitter : List Nat) (page fetched : Nat)
      (sc kept : List Row),
      loopE start stop patterns maxPages (pages.map okResp) jitter page
        fetched sc kept
        = .ok (loopGo true start stop patterns maxPages pages page fetched sc
            kept) := by
  intro pages
  induction pages with
  | nil => intro jitter page fetched sc kept; rfl
  | cons p rest ih =>
      intro jitter page fetched sc kept
      simp only [List.map_cons, loopE, loopGo, okResp, Bool.true_and]
      rw [if_neg (by decide : ¬ raisesForStatus 200 = true)]
      by_cases hemp : p.rows.isEmpty = true
      · rw [if_pos hemp, if_pos hemp]
      · rw [if_neg hemp, if_neg hemp]
        by_cases hmin : pageMinBelow (pageEndDates p.rows) start = true
        · rw [if_pos hmin, if_pos hmin]
        · rw [if_neg hmin, if_neg hmin]
          by_cases hnext : (!p.hasNext) = true
          · rw [if_pos hnext, if_pos hnext]
          · rw [if_neg hnext, if_neg hnext]
            by_cases hcap : decide (maxPages < page + 1) = true
            · rw [if_pos hcap, if_pos hcap]
            · rw [if_neg hcap, if_neg hcap]
              exact ih jitter.tail (page + 1) (fetched + 1) _ _

/-- The jitter stream feeds only the modelled sleep; the loop's result does
not depend on it. -/
lemma loopE_jitter_agnostic (start stop : String) (patterns : List String)
    (maxPages : Nat) :
    ∀ (responses : List Response) (j1 j2 : List Nat) (page fetched : Nat)
      (sc kept : List Row),
      loopE start stop patterns maxPages responses j1 page fetched sc kept
        = loopE start stop patterns maxPages responses j2 page fetched sc
            kept := by
  intro responses
  induction responses with
  | nil => intro j1 j2 page fetched sc kept; rfl
  | cons r rest ih =>
      intro j1 j2 page fetched sc kept
      simp only [loopE]
      by_cases herr : raisesForStatus r.status = true
      · rw [if_pos herr, if_pos herr]
      · rw [if_neg herr, if_neg herr]
        by_cases hemp : r.rows.isEmpty = true
        · rw [if_pos hemp, if_pos hemp]
        · rw [if_neg hemp, if_neg hemp]
          by_cases hmin : pageMinBelow (pageEndDates r.rows) start = true
          · rw [if_pos hmin, if_pos hmin]
          · rw [if_neg hmin, if_neg hmin]
            by_cases hnext : (!r.hasNext) = true
            · rw [if_pos hnext, if_pos hnext]
            · rw [if_neg hnext, if_neg hnext]
              by_cases hcap : decide (maxPages < page + 1) = true
              · rw [if_pos hcap, if_pos hcap]
              · rw [if_neg hcap, if_neg hcap]
                exact ih j1.tail j2.tail (page + 1) (fetched + 1) _ _

/-- The earlier variant's accumulator is exactly the concatenation, in
order, of the rows of the pages it processed. -/
lemma oldLoop_allRows :
    ∀ (pages : List Page) (page : Nat) (acc : List Row),
      (oldLoop pages page acc).1
        = acc ++ ((pages.take (oldLoop pages page acc).2).map Page.rows).flatten := by
  intro pages
  induction pages with
  | nil => intro page acc; simp [oldLoop]
  | cons p rest ih =>
      intro page acc
      simp only [oldLoop]
      by_cases hemp : p.rows.isEmpty = true
      · rw [if_pos hemp]; simp
      · rw [if_neg hemp]
        by_cases hnext : (!p.hasNext) = true
        · rw [if_pos hnext]; simp
        · rw [if_neg hnext]
          by_cases hcap : decide (25 < page + 1) = true
          · rw [if_pos hcap]; simp
          · rw [if_neg hcap]
            have := ih (page + 1) (acc ++ p.rows)
            simp only [List.take_succ_cons, List.map_cons, List.flatten_cons,
              ← List.append_assoc]
            exact this

lemma normalizeList_eq_map : ∀ xs : List Value,
    normalizeList xs = xs.map normalize := by
  intro xs
  induction xs with
  | nil => rfl
  | cons x xs ih => simp [normalizeList, ih]

lemma prefixB_iff : ∀ l₁ l₂ : List Char, prefixB l₁ l₂ = true ↔ l₁ <+: l₂ := by
  intro l₁
  induction l₁ with
  | nil => intro l₂; simp [prefixB]
  | cons a as ih =>
      intro l₂
      cases l₂ with
      | nil => simp [prefixB, List.prefix_nil]
      | cons b bs =>
          simp [prefixB, List.cons_prefix_cons, ih, Bool.and_eq_true, beq_iff_eq]

lemma infixB_iff : ∀ pat hay : List Char, infixB pat hay = true ↔ pat <:+: hay := by
  intro pat hay
  induction hay with
  | nil => simp [infixB, List.isEmpty_iff]
  | cons c rest ih =>
      simp [infixB, List.infix_cons_iff, prefixB_iff, ih, Bool.or_eq_true]

/-- The `or`-chain over the candidate keys picks the first truthy value. -/
lemma getEndDate_eq_find (row : Row) :
    getEndDate row
      = ((endDateCandidates.map (pyGet row)).find? truthy).getD (.str "") := by
  unfold getEndDate endDateCandidates
  by_cases h1 : truthy (pyGet row "End Date") <;>
    by_cases h2 : truthy (pyGet row "period_of_performance_current_end_date") <;>
      by_cases h3 : truthy (pyGet row "period_of_performance_potential_end_date") <;>
        by_cases h4 : truthy (pyGet row "Period of Performance Current End Date") <;>
          by_cases h5 : truthy (pyGet row "Period of Performance Potential End Date") <;>
            simp [pyOr, h1, h2, h3, h4, h5, List.find?]

/-- `_date_only(_get_end_date(row))` agrees with the specification's
ordered-fallback-then-truncate description. -/
lemma extractEndDate_eq_spec (row : Row) : extractEndDate row = endDateSpec row := by
  unfold extractEndDate endDateSpec
  rw [getEndDate_eq_find]
  cases hf : (endDateCandidates.map (pyGet row)).find? truthy with
  | none => rfl
  | some v =>
      have hv : truthy v = true := List.find?_some hf
      simp [dateOnly, hv]

/-- The extractor truncates a well-formed date to its first 10 characters,
whatever time-of-day suffix follows. -/
lemma dateOnly_20260201 (suffix : String) :
    dateOnly (.str ("2026-02-01" ++ suffix)) = "2026-02-01" := by
  have h1 : ("2026-02-01" ++ suffix).toList
      = '2' :: '0' :: '2' :: '6' :: '-' :: '0' :: '2' :: '-' :: '0' :: '1'
          :: suffix.toList := by
    show ("2026-02-01" ++ suffix).data = _
    rw [String.data_append]
    rfl
  have hne : ("2026-02-01" ++ suffix) ≠ "" := by
    intro h
    have h2 := congrArg String.toList h
    rw [h1] at h2
    simp [String.toList] at h2
  have htr : truthy (.str ("2026-02-01" ++ suffix)) = true := by
    simp [truthy, hne]
  have hshape : datePrefixOK ("2026-02-01" ++ suffix) = true := by
    unfold datePrefixOK
    rw [h1]
    rfl
  have hmain : dateOnly (.str ("2026-02-01" ++ suffix))
      = ((("2026-02-01" ++ suffix).toList.take 10).asString) := by
    simp only [dateOnly, pyStr, htr, if_true, hshape]
  rw [hmain, h1]
  rfl

/-- The extractor also accepts digit shapes that are not calendar dates. -/
lemma dateOnly_20259999 (suffix : String) :
    dateOnly (.str ("2025-99-99" ++ suffix)) = "2025-99-99" := by
  have h1 : ("2025-99-99" ++ suffix).toList
      = '2' :: '0' :: '2' :: '5' :: '-' :: '9' :: '9' :: '-' :: '9' :: '9'
          :: suffix.toList := by
    show ("2025-99-99" ++ suffix).data = _
    rw [String.data_append]
    rfl
  have hne : ("2025-99-99" ++ suffix) ≠ "" := by
    intro h
    have h2 := congrArg String.toList h
    rw [h1] at h2
    simp [String.toList] at h2
  have htr : truthy (.str ("2025-99-99" ++ suffix)) = true := by
    simp [truthy, hne]
  have hshape : datePrefixOK ("2025-99-99" ++ suffix) = true := by
    unfold datePrefixOK
    rw [h1]
    rfl
  have hmain : dateOnly (.str ("2025-99-99" ++ suffix))
      = ((("2025-99-99" ++ suffix).toList.take 10).asString) := by
    simp only [dateOnly, pyStr, htr, if_true, hshape]
  rw [hmain, h1]
  rfl

lemma append_ne_empty {s t : String} (h : s ≠ "") : s ++ t ≠ "" := by
  intro he
  apply h
  have hd := congrArg String.data he
  rw [String.data_append] at hd
  exact String.ext (List.append_eq_nil.mp hd).1

end Lemmas

/-- C1: for pages sorted by extracted end date in descending order, the
fetch loop with the early-stop break (`es = true`, the shipped code) keeps
exactly the same rows as the identical loop with only that break removed
(`es = false`), which fetches every page the API offers under the unchanged
empty-page/`hasNext`/safety-cap stop rules and filters each row; so the
early stop is a pure optimization, not a behaviour change. -/
theorem early_stop_is_pure_optimization (start stop : String)
    (patterns : List String) (maxPages : Nat) (pages : List Page)
    (hsorted : SortedDesc pages) :
    (fetchAll true start stop patterns maxPages pages).kept
      = (fetchAll false start stop patterns maxPages pages).kept :=
  loopGo_es_agnostic start stop patterns maxPages pages 1 0 [] [] hsorted

/-- Witness for C1 at a concrete descending two-page input on which the
early stop actually fires on the second page. -/
theorem early_stop_is_pure_optimization_witness :
    SortedDesc
      [⟨[[("End Date", Value.str "2025-11-01")],
         [("End Date", Value.str "2025-10-01")]], true⟩,
       ⟨[[("End Date", Value.str "2024-09-01")]], false⟩]
    ∧ (fetchAll true "2025-01-01" "2025-12-31" [] 200
        [⟨[[("End Date", Value.str "2025-11-01")],
           [("End Date", Value.str "2025-10-01")]], true⟩,
         ⟨[[("End Date", Value.str "2024-09-01")]], false⟩]).kept
      = (fetchAll false "2025-01-01" "2025-12-31" [] 200
          [⟨[[("End Date", Value.str "2025-11-01")],
             [("End Date", Value.str "2025-10-01")]], true⟩,
           ⟨[[("End Date", Value.str "2024-09-01")]], false⟩]).kept :=
  ⟨by decide,
   early_stop_is_pure_optimization "2025-01-01" "2025-12-31" [] 200
     [⟨[[("End Date", Value.str "2025-11-01")],
        [("End Date", Value.str "2025-10-01")]], true⟩,
      ⟨[[("End Date", Value.str "2024-09-01")]], false⟩] (by decide)⟩

/-- C2: a fetched record is kept iff its extracted end date is non-empty,
lies in `[start, stop]`, and the agency matcher accepts it (the kept list is
exactly the scanned list filtered by that conjunction); every kept record's
end date lies in the window; and the converse fails: an in-window record can
be dropped by the agency predicate alone. -/
theorem kept_iff_window_and_agency (start stop : String)
    (patterns : List String) (maxPages : Nat) (pages : List Page) :
    (fetchAll true start stop patterns maxPages pages).kept
      = (fetchAll true start stop patterns maxPages pages).scannedRows.filter
          (fun r => matchesAgency r patterns && extractEndDate r != ""
            && strLe start (extractEndDate r) && strLe (extractEndDate r) stop)
  ∧ (∀ r ∈ (fetchAll true start stop patterns maxPages pages).kept,
      strLe start (extractEndDate r) = true
        ∧ strLe (extractEndDate r) stop = true)
  ∧ (∃ (start2 stop2 : String) (patterns2 : List String)
        (pages2 : List Page) (r : Row),
        extractEndDate r ≠ ""
        ∧ strLe start2 (extractEndDate r) = true
        ∧ strLe (extractEndDate r) stop2 = true
        ∧ r ∈ (fetchAll true start2 stop2 patterns2 200 pages2).scannedRows
        ∧ r ∉ (fetchAll true start2 stop2 patterns2 200 pages2).kept) := by
  have hfix : (fetchAll true start stop patterns maxPages pages).kept
      = (fetchAll true start stop patterns maxPages pages).scannedRows.filter
          (keepRow start stop patterns) :=
    loopGo_kept_eq_filter true start stop patterns maxPages pages 1 0 [] [] rfl
  refine ⟨hfix, ?_, ?_⟩
  · intro r hr
    rw [hfix] at hr
    have hp := (List.mem_filter.mp hr).2
    simp only [keepRow, Bool.and_eq_true] at hp
    exact ⟨hp.1.2, hp.2⟩
  · refine ⟨"2025-01-01", "2025-12-31", ["defense information systems agency"],
      [⟨[[("End Date", Value.str "2025-06-01"),
          ("Awarding Agency", Value.str "Department of the Navy")]], false⟩],
      [("End Date", Value.str "2025-06-01"),
       ("Awarding Agency", Value.str "Department of the Navy")],
      by decide, by decide, by decide, ?_, ?_⟩
    · exact List.mem_singleton.mpr rfl
    · exact List.not_mem_nil _

/-- Witness for C2 at a concrete one-page input whose only record is kept,
discharging the membership hypothesis of the in-window consequence. -/
theorem kept_iff_window_and_agency_witness :
    (fetchAll true "2025-01-01" "2025-12-31" [] 200
      [⟨[[("End Date", Value.str "2025-06-01")]], false⟩]).kept
      = (fetchAll true "2025-01-01" "2025-12-31" [] 200
          [⟨[[("End Date", Value.str "2025-06-01")]], false⟩]).scannedRows.filter
          (fun r => matchesAgency r [] && extractEndDate r != ""
            && strLe "2025-01-01" (extractEndDate r)
            && strLe (extractEndDate r) "2025-12-31")
  ∧ strLe "2025-01-01" (extractEndDate [("End Date", Value.str "2025-06-01")]) = true
  ∧ strLe (extractEndDate [("End Date", Value.str "2025-06-01")]) "2025-12-31" = true := by
  have h := kept_iff_window_and_agency "2025-01-01" "2025-12-31" [] 200
    [⟨[[("End Date", Value.str "2025-06-01")]], false⟩]
  have hm := h.2.1 [("End Date", Value.str "2025-06-01")]
    (List.mem_singleton.mpr rfl)
  exact ⟨h.1, hm.1, hm.2⟩

/-- C3: `extract_end_date` tries the candidate field names in their fixed
order, takes the first non-empty value, and returns its leading
10-character `YYYY-MM-DD` prefix (empty if no candidate is non-empty or the
value does not begin with that shape); in particular any value
`"2026-02-01" ++ suffix` yields `"2026-02-01"` whatever the time-of-day
suffix. -/
theorem extract_end_date_spec :
    (∀ row : Row, extractEndDate row = endDateSpec row)
  ∧ (∀ suffix : String,
      extractEndDate [("End Date", Value.str ("2026-02-01" ++ suffix))]
        = "2026-02-01") := by
  refine ⟨extractEndDate_eq_spec, ?_⟩
  intro suffix
  have hne : ("2026-02-01" ++ suffix) ≠ "" := append_ne_empty (by decide)
  have htr : truthy (Value.str ("2026-02-01" ++ suffix)) = true := by
    simp [truthy, hne]
  have hget : getEndDate [("End Date", Value.str ("2026-02-01" ++ suffix))]
      = Value.str ("2026-02-01" ++ suffix) := by
    unfold getEndDate
    simp [pyGet, pyOr, htr, List.find?]
  show dateOnly (getEndDate _) = _
  rw [hget]
  exact dateOnly_20260201 suffix

/-- C4: the normalizer renders an object with a (truthy) code and a
(truthy) name/description as `"<code> - <desc>"` (description preferred),
an object with only a code as the code, any other object as its JSON text,
an array as its elements normalized and joined with `"; "`, null as the
empty string, and other scalars as their textual form — including the
spec's three concrete examples. -/
theorem normalize_spec :
    (∀ fields : Row, truthy (pyGet fields "code") = true →
      truthy (pyOr (pyGet fields "description") (pyGet fields "name")) = true →
      normalize (.obj fields)
        = pyStr (pyGet fields "code") ++ " - "
            ++ pyStr (pyOr (pyGet fields "description") (pyGet fields "name")))
  ∧ (∀ fields : Row, truthy (pyGet fields "code") = true →
      truthy (pyOr (pyGet fields "description") (pyGet fields "name")) = false →
      normalize (.obj fields) = pyStr (pyGet fields "code"))
  ∧ (∀ fields : Row, truthy (pyGet fields "code") = false →
      normalize (.obj fields) = jsonDumps (.obj fields))
  ∧ (∀ xs : List Value,
      normalize (.arr xs) = String.intercalate "; " (xs.map normalize))
  ∧ normalize .null = ""
  ∧ (∀ s : String, normalize (.str s) = s)
  ∧ (∀ n : Int, normalize (.num n) = toString n)
  ∧ normalize (.obj [("code", Value.str "D310"),
      ("name", Value.str "IT and Telecom")]) = "D310 - IT and Telecom"
  ∧ normalize (.arr [Value.str "A", Value.str "B"]) = "A; B" := by
  refine ⟨?_, ?_, ?_, ?_, rfl, fun s => rfl, fun n => rfl, by decide, by decide⟩
  · intro fields h1 h2
    simp [normalize, h1, h2]
  · intro fields h1 h2
    simp [normalize, h1, h2]
  · intro fields h1
    simp [normalize, h1]
  · intro xs
    simp [normalize, normalizeList_eq_map]

/-- Witness for C4 at the spec's own example object, discharging the two
truthiness hypotheses of the code-and-name clause. -/
theorem normalize_spec_witness :
    truthy (pyGet [("code", Value.str "D310"),
      ("name", Value.str "IT and Telecom")] "code") = true
  ∧ truthy (pyOr
      (pyGet [("code", Value.str "D310"),
        ("name", Value.str "IT and Telecom")] "description")
      (pyGet [("code", Value.str "D310"),
        ("name", Value.str "IT and Telecom")] "name")) = true
  ∧ normalize (.obj [("code", Value.str "D310"),
      ("name", Value.str "IT and Telecom")])
      = pyStr (pyGet [("code", Value.str "D310"),
          ("name", Value.str "IT and Telecom")] "code") ++ " - "
          ++ pyStr (pyOr
              (pyGet [("code", Value.str "D310"),
                ("name", Value.str "IT and Telecom")] "description")
              (pyGet [("code", Value.str "D310"),
                ("name", Value.str "IT and Telecom")] "name")) :=
  ⟨by decide, by decide,
   normalize_spec.1 [("code", Value.str "D310"),
     ("name", Value.str "IT and Telecom")] (by decide) (by decide)⟩

/-- C5: with an empty pattern set every record matches; otherwise the
matcher accepts a record iff at least one pattern occurs as a substring of
the lowercased concatenation of the four agency text fields. -/
theorem matches_agency_spec :
    (∀ row : Row, matchesAgency row [] = true)
  ∧ (∀ (row : Row) (patterns : List String), patterns ≠ [] →
      (matchesAgency row patterns = true ↔
        ∃ p ∈ patterns, p.toList <:+: (agencyHaystack row).toList)) := by
  constructor
  · intro row; rfl
  · intro row patterns hne
    unfold matchesAgency
    rw [if_neg (by simpa using hne)]
    simp [List.any_eq_true, strContains, infixB_iff]

/-- Witness for C5 at a one-pattern set and a concrete agency field,
discharging the non-emptiness hypothesis. -/
theorem matches_agency_spec_witness :
    (["defense information"] : List String) ≠ []
  ∧ (matchesAgency
      [("Awarding Agency", Value.str "Defense Information Systems Agency")]
      ["defense information"] = true ↔
      ∃ p ∈ (["defense information"] : List String),
        p.toList <:+: (agencyHaystack
          [("Awarding Agency",
            Value.str "Defense Information Systems Agency")]).toList) :=
  ⟨by decide,
   matches_agency_spec.2
     [("Awarding Agency", Value.str "Defense Information Systems Agency")]
     ["defense information"] (by decide)⟩

/-- C6: the earlier variant's fetcher accumulates every record of every
fetched page, in order, into `all_rows` — independently of any filter —
and the window filter is applied only downstream, on that full pull. -/
theorem fetcher_accumulates_all_rows (start stop : String)
    (pages : List Page) :
    (oldMain start stop pages).1
      = ((pages.take (oldLoop pages 1 []).2).map Page.rows).flatten
  ∧ (oldMain start stop pages).2
      = (oldMain start stop pages).1.filter (inWindowOld start stop) := by
  constructor
  · simpa [oldMain] using oldLoop_allRows pages 1 []
  · rfl

/-- C7: with a positive cap, the fetch loop makes at most `max_pages` page
requests; and when it stops because the cap was hit (the API still
reporting more pages), the run is not an error — `main` exits 0 and still
writes the report from the pages fetched so far. -/
theorem fetch_bounded_by_max_pages (start stop : String)
    (patterns : List String) (maxPages : Nat) (pages : List Page)
    (jitter : List Nat) (hcap : 1 ≤ maxPages) :
    (fetchAll true start stop patterns maxPages pages).fetched ≤ maxPages
  ∧ ((fetchAll true start stop patterns maxPages pages).reason
        = StopReason.safetyCap →
      mainRun start stop patterns maxPages (pages.map okResp) jitter
        = ⟨0, some (renderReport
            (fetchAll true start stop patterns maxPages pages).kept)⟩) := by
  constructor
  · have h := loopGo_fetched_le true start stop patterns maxPages pages 1 0
      [] [] (by omega)
    unfold fetchAll
    omega
  · intro _
    unfold mainRun fetchAll
    rw [loopE_map_ok]

/-- Witness for C7: cap of one page, first page nonempty with
`hasNext = true`; exactly one request is made, the stop reason is the
safety cap, and the run still exits 0 with the report written. -/
theorem fetch_bounded_by_max_pages_witness :
    1 ≤ 1
  ∧ (fetchAll true "2025-01-01" "2025-12-31" [] 1
      [⟨[[("End Date", Value.str "2025-06-01")]], true⟩,
       ⟨[[("End Date", Value.str "2025-05-01")]], true⟩]).fetched ≤ 1
  ∧ (fetchAll true "2025-01-01" "2025-12-31" [] 1
      [⟨[[("End Date", Value.str "2025-06-01")]], true⟩,
       ⟨[[("End Date", Value.str "2025-05-01")]], true⟩]).reason
      = StopReason.safetyCap
  ∧ mainRun "2025-01-01" "2025-12-31" [] 1
      ([⟨[[("End Date", Value.str "2025-06-01")]], true⟩,
        ⟨[[("End Date", Value.str "2025-05-01")]], true⟩].map okResp) []
      = ⟨0, some (renderReport
          (fetchAll true "2025-01-01" "2025-12-31" [] 1
            [⟨[[("End Date", Value.str "2025-06-01")]], true⟩,
             ⟨[[("End Date", Value.str "2025-05-01")]], true⟩]).kept)⟩ := by
  have h := fetch_bounded_by_max_pages "2025-01-01" "2025-12-31" [] 1
    [⟨[[("End Date", Value.str "2025-06-01")]], true⟩,
     ⟨[[("End Date", Value.str "2025-05-01")]], true⟩] [] (by decide)
  exact ⟨by decide, h.1, by decide, h.2 (by decide)⟩

/-- C8: a fetch whose final status is 4xx/5xx (retryable statuses having
been retried inside the HTTP session) aborts the run — the error
propagates, the exit code is non-zero and no report is written — while an
all-successful fetch, even one returning no records at all, exits 0 with
the report written. -/
theorem fatal_fetch_aborts_run (start stop : String) (patterns : List String)
    (maxPages : Nat) (jitter : List Nat) :
    (∀ (responses : List Response) (e : Nat),
      loopE start stop patterns maxPages responses jitter 1 0 [] []
          = Except.error e →
      mainRun start stop patterns maxPages responses jitter = ⟨1, none⟩)
  ∧ (∀ (r : Response) (rest : List Response),
      400 ≤ r.status → r.status < 600 →
      loopE start stop patterns maxPages (r :: rest) jitter 1 0 [] []
        = Except.error r.status)
  ∧ (∀ pages : List Page,
      mainRun start stop patterns maxPages (pages.map okResp) jitter
        = ⟨0, some (renderReport
            (fetchAll true start stop patterns maxPages pages).kept)⟩) := by
  refine ⟨?_, ?_, ?_⟩
  · intro responses e h
    unfold mainRun
    rw [h]
  · intro r rest h4 h6
    have hrs : raisesForStatus r.status = true := by
      simp [raisesForStatus, h4, h6]
    simp only [loopE]
    rw [if_pos hrs]
  · intro pages
    unfold mainRun fetchAll
    rw [loopE_map_ok]

/-- Witness for C8: a single 404 response aborts with exit 1 and no
report; an empty (zero-page) successful pull exits 0 with the report
written. -/
theorem fatal_fetch_aborts_run_witness :
    400 ≤ 404 ∧ 404 < 600
  ∧ loopE "2025-01-01" "2025-12-31" [] 200 [⟨404, [], false⟩] [] 1 0 [] []
      = Except.error 404
  ∧ mainRun "2025-01-01" "2025-12-31" [] 200 [⟨404, [], false⟩] [] = ⟨1, none⟩
  ∧ mainRun "2025-01-01" "2025-12-31" [] 200 (([] : List Page).map okResp) []
      = ⟨0, some (renderReport
          (fetchAll true "2025-01-01" "2025-12-31" [] 200 []).kept)⟩ := by
  have h := fatal_fetch_aborts_run "2025-01-01" "2025-12-31" [] 200 []
  refine ⟨by decide, by decide, ?_, ?_, ?_⟩
  · exact h.2.1 ⟨404, [], false⟩ [] (by decide) (by decide)
  · exact h.1 [⟨404, [], false⟩] 404
      (h.2.1 ⟨404, [], false⟩ [] (by decide) (by decide))
  · exact h.2.2 []

/-- C9: the run is a pure function of the response sequence — the random
inter-page jitter (which only feeds the sleep) never changes the produced
report bytes — and the kept rows are a sublist of the scanned rows, so the
report preserves fetch order. -/
theorem pipeline_deterministic (start stop : String) (patterns : List String)
    (maxPages : Nat) (responses : List Response) (j1 j2 : List Nat)
    (pages : List Page) :
    mainRun start stop patterns maxPages responses j1
      = mainRun start stop patterns maxPages responses j2
  ∧ List.Sublist (fetchAll true start stop patterns maxPages pages).kept
      (fetchAll true start stop patterns maxPages pages).scannedRows := by
  constructor
  · unfold mainRun
    rw [loopE_jitter_agnostic start stop patterns maxPages responses j1 j2
      1 0 [] []]
  · unfold fetchAll
    rw [loopGo_kept_eq_filter true start stop patterns maxPages pages 1 0
      [] [] rfl]
    exact List.filter_sublist _

/-- C10: the window check and the early-stop comparison are lexicographic
string comparisons on the extracted 10-character prefix, and the extractor
accepts any `NNNN-NN-NN`-shaped prefix without calendar validation: the
bogus date `2025-99-99` is extracted as-is, kept for the window
`[2025-01-01, 2026-01-01]`, dropped for `[2025-01-01, 2025-12-31]` purely
by string order, and drives the early stop when it falls below the window
start. -/
theorem string_order_date_semantics :
    (∀ suffix : String,
      dateOnly (.str ("2025-99-99" ++ suffix)) = "2025-99-99")
  ∧ (∀ (start stop : String) (row : Row),
      keepRow start stop [] row
        = (extractEndDate row != "" && strLe start (extractEndDate row)
            && strLe (extractEndDate row) stop))
  ∧ (fetchAll true "2025-01-01" "2026-01-01" [] 200
      [⟨[[("End Date", Value.str "2025-99-99")]], false⟩]).kept
      = [[("End Date", Value.str "2025-99-99")]]
  ∧ (fetchAll true "2025-01-01" "2025-12-31" [] 200
      [⟨[[("End Date", Value.str "2025-99-99")]], false⟩]).kept = []
  ∧ (fetchAll true "2026-01-01" "2026-12-31" [] 200
      [⟨[[("End Date", Value.str "2025-99-99")]], true⟩,
       ⟨[[("End Date", Value.str "2024-01-01")]], false⟩]).fetched = 1
  ∧ (fetchAll true "2026-01-01" "2026-12-31" [] 200
      [⟨[[("End Date", Value.str "2025-99-99")]], true⟩,
       ⟨[[("End Date", Value.str "2024-01-01")]], false⟩]).reason
      = StopReason.earlyStop := by
  refine ⟨dateOnly_20259999, ?_, rfl, rfl, by decide, by decide⟩
  intro start stop row
  simp [keepRow, matchesAgency]

end Disa
